import Mathlib

/-!
Shallow embedding of the core text-processing, similarity-ranking and
claim-verification algorithms of the kys-rag repository, together with
proofs about them.

Sources embedded:
- app/services/vector_service.py : preprocessing, chunking, embedding
  orchestration with metrics, cosine similarity with clamping.
- app/services/base.py : the aggregation-pipeline similarity search
  used by all content services.
- app/database.py : vector_similarity_search with its native and
  manual-fallback scoring branches.
- app/services/claim.py : claim verification against candidate studies
  and the per-claim processing pipeline.

Modelling conventions: Python floats are modelled as rationals where the
source computes only field operations, and as reals where the source
takes square roots; Python strings are modelled as List Char or String;
fallible code returns Except or Option; the ML encoder and entailment
model are oracles passed as function parameters.
-/

/-! ### Python string primitives used by vector_service.py -/

/-- Whitespace characters recognised by the Python no-argument
str.split, restricted to the ASCII range. -/
def isPySpace (c : Char) : Bool :=
  c == ' ' || c == '\t' || c == '\n' || c == '\r' || c == '\x0b' || c == '\x0c'

/-- Models the Python str.isprintable test on a single character,
restricted to the ASCII range: control characters below space and DEL
are not printable, everything else is. -/
def isPrintableChar (c : Char) : Bool :=
  0x20 ≤ c.toNat && c.toNat ≠ 0x7f

/-- Accumulator-based splitter implementing the Python no-argument
str.split: maximal runs of non-whitespace characters, with empty pieces
discarded.  The accumulator holds the current token reversed. -/
def splitAux : List Char → List Char → List (List Char)
  | [], acc => if acc.isEmpty then [] else [acc.reverse]
  | c :: cs, acc =>
    if isPySpace c then
      if acc.isEmpty then splitAux cs [] else acc.reverse :: splitAux cs []
    else splitAux cs (c :: acc)

/-- Python text.split() with no arguments. -/
def pySplit (s : List Char) : List (List Char) :=
  splitAux s []

/-- Python sep.join(pieces). -/
def pyJoin (sep : List Char) : List (List Char) → List Char
  | [] => []
  | [t] => t
  | t :: ts => t ++ sep ++ pyJoin sep ts

/-- Embeds VectorService._preprocess_text: join the whitespace-split
tokens with single spaces, replace newlines and tabs by spaces (a no-op
after the join, kept for faithfulness), then drop non-printable
characters. -/
def preprocess_text (s : List Char) : List Char :=
  let joined := pyJoin [' '] (pySplit s)
  let noNewline := joined.map (fun c => if c = '\n' then ' ' else c)
  let noTab := noNewline.map (fun c => if c = '\t' then ' ' else c)
  noTab.filter isPrintableChar

/-! ### Chunking (VectorService._chunk_text) -/

/-- One pass of the chunking loop `for i in range(0, len(words), step)`:
take a window of `size` words, advance by `step`.  The fuel argument
makes the recursion structural; callers pass the word-list length, which
is enough fuel whenever `step ≥ 1`.  (A Python range with step 0 raises
ValueError, so the `step = 0` case is never reached by the source.) -/
def chunkLoop (size step : Nat) : Nat → List α → List (List α)
  | 0, _ => []
  | _ + 1, [] => []
  | fuel + 1, w :: ws => (w :: ws).take size :: chunkLoop size step fuel ((w :: ws).drop step)

/-- The chunking loop over an already-split word list, with the overlap
computed as in the source: `overlap = min(50, chunk_size // 10)` and the
loop step `chunk_size - overlap`. -/
def chunkWords (words : List α) (size : Nat) : List (List α) :=
  let overlap := min 50 (size / 10)
  chunkLoop size (size - overlap) words.length words

/-- Embeds VectorService._chunk_text: split into words, window them,
and join each window back with single spaces. -/
def chunk_text (s : List Char) (size : Nat) : List (List Char) :=
  (chunkWords (pySplit s) size).map (pyJoin [' '])

/-- Concatenation of chunks with the k-token overlap removed from every
chunk after the first: the reconstruction operation named by the spec. -/
def reconstructTokens (k : Nat) : List (List α) → List α
  | [] => []
  | c :: rest => c ++ (rest.map (List.drop k)).flatten

/-! ### Similarity scoring and the base-service search pipeline
(BaseService.search_similar in app/services/base.py).

The aggregation pipeline computes, for every stored document, the dot
product of its stored vector with the query vector via `$zip` (which,
like List.zip, truncates to the shorter input) and `$reduce`, clamps it
with `min 1 (max 0 _)`, keeps documents with `similarity >= min_score`,
sorts by similarity descending and truncates to `limit`. -/

/-- The `$reduce` over `$zip` dot product from the pipeline. -/
def dotZip (a b : List ℚ) : ℚ :=
  (a.zip b).foldl (fun acc p => acc + p.1 * p.2) 0

/-- The clamp `{"$min": [1.0, {"$max": [0.0, dot]}]}`. -/
def clamp01 (x : ℚ) : ℚ :=
  min 1 (max 0 x)

/-- A stored document as seen by the ranking pipeline: an identifier
and its stored embedding vector. -/
structure StudyDoc where
  id : Nat
  vector : List ℚ
deriving DecidableEq, Repr

/-- Insert into a list kept sorted by non-increasing score. -/
def insertDesc [LinearOrder β] (sc : α → β) (x : α) : List α → List α
  | [] => [x]
  | y :: ys => if sc y ≤ sc x then x :: y :: ys else y :: insertDesc sc x ys

/-- Sort by non-increasing score: the semantics of the pipeline stage
`{"$sort": {"similarity": -1}}`. -/
def sortDesc [LinearOrder β] (sc : α → β) (l : List α) : List α :=
  l.foldr (insertDesc sc) []

/-- Embeds BaseService.search_similar as a function of the query
embedding (the source first embeds the query text through the encoder;
the embedding oracle is factored out, so the query vector stands for
the embedding of an arbitrary query text). -/
def search_similar (queryVector : List ℚ) (docs : List StudyDoc)
    (limit : Nat) (min_score : ℚ) : List (StudyDoc × ℚ) :=
  let scored := docs.map (fun d => (d, clamp01 (dotZip d.vector queryVector)))
  let matched := scored.filter (fun p => decide (min_score ≤ p.2))
  let sorted := sortDesc (fun p => p.2) matched
  sorted.take limit

/-! ### Cosine similarity (VectorService.calculate_similarity) and the
database-level vector_similarity_search (app/database.py).

The numpy and JavaScript computations take square roots, so these
scores are modelled in ℝ. -/

/-- Sum of squares of a vector, the argument of the norm square
root. -/
def sumSq (a : List ℚ) : ℚ :=
  (a.map (fun x => x * x)).sum

/-- Raw cosine similarity `dot(a,b) / (norm(a) * norm(b))` as computed
both by numpy in calculate_similarity and by the JavaScript `$function`
body in the manual fallback of vector_similarity_search.  Both zip the
two vectors, so the dot product truncates to the shorter input. -/
noncomputable def cosineRaw (a b : List ℚ) : ℝ :=
  ((dotZip a b : ℚ) : ℝ) / (Real.sqrt ((sumSq a : ℚ) : ℝ) * Real.sqrt ((sumSq b : ℚ) : ℝ))

/-- Embeds VectorService.calculate_similarity: numpy raises on a
dot product of 1-D arrays of different lengths, the surrounding
`except` swallows the error and returns 0.0; otherwise the cosine
similarity is clamped into [0,1] with `max(0.0, min(1.0, s))`. -/
noncomputable def calculate_similarity (a b : List ℚ) : ℝ :=
  if a.length = b.length then max 0 (min 1 (cosineRaw a b)) else 0

/-- One field of a MongoDB `$project` stage: either the exclusion
`"field": 0` or a computed (inclusion) field `"field": expression`. -/
inductive ProjField where
  | exclude (field : String)
  | compute (field : String)

/-- MongoDB accepts a `$project` stage only when it is all exclusions,
or when it is inclusion-style and the only excluded field is `_id`; an
exclusion of any other field mixed with a computed field is rejected
when the pipeline is parsed, before any document is processed. -/
def projectValid (fields : List ProjField) : Bool :=
  (fields.all fun f => match f with | .exclude _ => true | .compute _ => false) ||
  (fields.all fun f => match f with | .exclude name => name == "_id" | .compute _ => true)

/-- The final `$project` stage that vector_similarity_search appends in
both modes: it excludes the stored vector while computing the score
field. -/
def finalProjectStage : List ProjField :=
  [.exclude "vector", .compute "score"]

/-- Embeds DatabaseManager.vector_similarity_search.  The pipeline of
both modes ends with finalProjectStage, which mixes the exclusion of
"vector" with the computed "score" field; the backend rejects that
projection when parsing the pipeline, before scoring any document, so
the aggregate raises in both modes and the surrounding except
re-raises: the call never returns a result list.  The valid-projection
branch, which is unreachable, records the scoring semantics the earlier
stages describe: native mode keeps the backend searchScore of a
k-nearest-neighbour query for `limit * 2` candidates (an oracle here);
the manual fallback scores every document with the `$function`
JavaScript body — raw, unclamped cosine over zipped vectors, itself
also broken at runtime since server-side JavaScript has no Array.zip —
then sorts descending; both then apply the optional metadata filter and
truncate to `limit`. -/
noncomputable def vector_similarity_search (vectorSearchEnabled : Bool)
    (knn : List ℚ → Nat → List (StudyDoc × ℝ)) (queryVector : List ℚ)
    (docs : List StudyDoc) (limit : Nat) (metadataFilters : Option (StudyDoc → Bool)) :
    Except String (List (StudyDoc × ℝ)) :=
  if projectValid finalProjectStage then
    let scored :=
      if vectorSearchEnabled then knn queryVector (limit * 2)
      else sortDesc (fun p => p.2) (docs.map (fun d => (d, cosineRaw d.vector queryVector)))
    let matched :=
      match metadataFilters with
      | none => scored
      | some f => scored.filter (fun p => f p.1)
    .ok (matched.take limit)
  else
    .error "Invalid $project :: caused by :: Cannot do exclusion on field vector in inclusion projection"

/-! ### Claim verification (ClaimService in app/services/claim.py).

The entailment model (a softmax head producing a support probability)
is an oracle `entail : String → String → ℚ` taking the claim text and
the study text; the configured threshold MIN_CLAIM_CONFIDENCE (default
0.7) is the `minConfidence` parameter; retrieval results are passed in
as the `studies` list; `now` stands for datetime.utcnow(). -/

/-- A scientific study as consumed by claim verification. -/
structure Study where
  id : Nat
  title : String
  text : String
deriving DecidableEq

/-- A claim record (app/models/models.py Claim), with datetimes
abstracted to Nat timestamps. -/
structure Claim where
  text : String
  related_scientific_study_ids : List Nat
  confidence_score : Option ℚ
  verified : Bool
  verification_notes : Option String
  verified_at : Option Nat
deriving DecidableEq

/-- The note line appended for a supporting study; the two-decimal
float formatting of the score is abstracted by the Repr rendering of
the rational. -/
def noteLine (title : String) (s : ℚ) : String :=
  "Supported by " ++ title ++ " (confidence: " ++ reprStr s ++ ")"

/-- One iteration of the verify_claim loop over candidate studies.
State: (best_confidence, verification_notes, claim_verified). -/
def verifyStep (entail : String → String → ℚ) (minConfidence : ℚ) (claimText : String)
    (st : ℚ × List String × Bool) (study : Study) : ℚ × List String × Bool :=
  let s := entail claimText study.text
  let best := if st.1 < s then s else st.1
  if minConfidence < s then
    (best, st.2.1 ++ [noteLine study.title s], true)
  else
    (best, st.2.1, st.2.2)

/-- Embeds ClaimService.verify_claim: fold over the studies starting
from best_confidence 0.0, empty notes and unverified; returns
(claim_verified, best_confidence, final_notes) with the default note
when no study scored above the threshold. -/
def verify_claim (entail : String → String → ℚ) (minConfidence : ℚ)
    (claim : Claim) (studies : List Study) : Bool × ℚ × String :=
  let final := studies.foldl (verifyStep entail minConfidence claim.text) (0, [], false)
  let notes :=
    if final.2.1 = [] then "No strong supporting evidence found in provided studies."
    else String.intercalate "\n" final.2.1
  (final.2.2, final.1, notes)

/-- Embeds ClaimService.process_claim, with the retrieval result (the
studies found by find_relevant_studies) passed in.  On empty retrieval
only notes, confidence and verified are written; otherwise the claim is
scored against every candidate and additionally verified_at and
related_scientific_study_ids are set. -/
def process_claim (entail : String → String → ℚ) (minConfidence : ℚ) (now : Nat)
    (retrieved : List Study) (claim : Claim) : Claim :=
  if retrieved = [] then
    { claim with
        verification_notes := some "No relevant scientific studies found.",
        confidence_score := some 0,
        verified := false }
  else
    let r := verify_claim entail minConfidence claim retrieved
    { claim with
        verified := r.1,
        confidence_score := some r.2.1,
        verification_notes := some r.2.2,
        verified_at := some now,
        related_scientific_study_ids := retrieved.map (fun st => st.id) }

/-- Spec-side characterization of the accumulated notes: one line per
candidate whose score strictly exceeds the threshold, joined with
newlines, with the default message when there is none. -/
def notesPerSupportingStudy (entail : String → String → ℚ) (minConfidence : ℚ)
    (claimText : String) (studies : List Study) : String :=
  let lines := (studies.filter (fun st => decide (minConfidence < entail claimText st.text))).map
    (fun st => noteLine st.title (entail claimText st.text))
  if lines = [] then "No strong supporting evidence found in provided studies."
  else String.intercalate "\n" lines

/-! ### Embedding generation with metrics
(VectorService.generate_embedding).

The per-chunk encoder call is an oracle `embed` that may fail (an
encoder exception carrying its message).  The torch stack/mean
combination fails on an empty chunk list exactly as `torch.stack([])`
does; wall-clock processing_time is abstracted to 0, and the metrics
entry is the value stored under the text-prefix key. -/

/-- Per-embedding metrics record (vector_service.ProcessingMetrics). -/
structure ProcessingMetrics where
  chunk_count : Nat
  processing_time : ℚ
  input_length : Nat
  success : Bool
  error_message : String
deriving DecidableEq

/-- The sequential per-chunk loop: stop at the first failing encoder
call, as the for loop in generate_embedding does. -/
def mapExcept (f : α → Except String β) : List α → Except String (List β)
  | [] => .ok []
  | a :: as =>
    match f a with
    | .error e => .error e
    | .ok b =>
      match mapExcept f as with
      | .error e => .error e
      | .ok bs => .ok (b :: bs)

/-- Pointwise vector sum (for the stacked mean). -/
def addVec (a b : List ℚ) : List ℚ :=
  (a.zip b).map (fun p => p.1 + p.2)

/-- Arithmetic mean across the chunk axis of equally sized vectors. -/
def meanVec : List (List ℚ) → List ℚ
  | [] => []
  | e :: rest => (rest.foldl addVec e).map (fun x => x / ((e :: rest).length : ℚ))

/-- Embeds VectorService._combine_embeddings: `torch.stack` rejects an
empty tensor list and tensors of unequal sizes; otherwise the chunk
embeddings are averaged. -/
def combine_embeddings : List (List ℚ) → Except String (List ℚ)
  | [] => .error "stack expects a non-empty TensorList"
  | e :: rest =>
    if rest.all (fun v => v.length == e.length) then .ok (meanVec (e :: rest))
    else .error "stack expects each tensor to be equal size"

/-- The try-block of generate_embedding: preprocess, chunk, embed each
chunk, combine. -/
def generate_embedding_run (embed : String → Except String (List ℚ))
    (text : String) : Except String (List ℚ) :=
  let chunks := chunk_text (preprocess_text text.toList) 512
  match mapExcept (fun ch => embed (String.mk ch)) chunks with
  | .error e => .error e
  | .ok embs => combine_embeddings embs

/-- Embeds VectorService.generate_embedding: the vector (or none on
any stage error) together with the ProcessingMetrics entry recorded for
the attempt.  As in the source, by the time metrics are written `text`
has been rebound to its preprocessed form, so input_length is the
preprocessed length on both paths. -/
def generate_embedding (embed : String → Except String (List ℚ))
    (text : String) : Option (List ℚ) × ProcessingMetrics :=
  match generate_embedding_run embed text with
  | .ok v =>
    (some v,
     ⟨(chunk_text (preprocess_text text.toList) 512).length, 0,
      (preprocess_text text.toList).length, true, ""⟩)
  | .error e =>
    (none, ⟨0, 0, (preprocess_text text.toList).length, false, e⟩)

/-! ### Theorems: ranking, similarity bounds, claim pipeline,
preprocessing, chunk reconstruction and embedding failure semantics. -/

/-! Ordering facts about insertDesc and sortDesc. -/

theorem mem_insertDesc [LinearOrder β] (sc : α → β) (x z : α) :
    ∀ l : List α, z ∈ insertDesc sc x l → z = x ∨ z ∈ l
  | [], h => by
    simpa [insertDesc] using h
  | y :: ys, h => by
    by_cases hc : sc y ≤ sc x
    · rw [insertDesc, if_pos hc] at h
      rcases List.mem_cons.mp h with h | h
      · exact Or.inl h
      · exact Or.inr h
    · rw [insertDesc, if_neg hc] at h
      rcases List.mem_cons.mp h with h | h
      · exact Or.inr (by simp [h])
      · rcases mem_insertDesc sc x z ys h with h2 | h2
        · exact Or.inl h2
        · exact Or.inr (by simp [h2])

theorem sorted_insertDesc [LinearOrder β] (sc : α → β) (x : α) :
    ∀ l : List α, l.Pairwise (fun a b => sc b ≤ sc a) →
      (insertDesc sc x l).Pairwise (fun a b => sc b ≤ sc a)
  | [], _ => by simp [insertDesc]
  | y :: ys, h => by
    rcases List.pairwise_cons.mp h with ⟨hy, hys⟩
    by_cases hc : sc y ≤ sc x
    · rw [insertDesc, if_pos hc]
      refine List.pairwise_cons.mpr ⟨?_, h⟩
      intro z hz
      rcases List.mem_cons.mp hz with hz | hz
      · exact hz ▸ hc
      · exact le_trans (hy z hz) hc
    · rw [insertDesc, if_neg hc]
      refine List.pairwise_cons.mpr ⟨?_, sorted_insertDesc sc x ys hys⟩
      intro z hz
      rcases mem_insertDesc sc x z ys hz with h2 | h2
      · exact h2 ▸ le_of_not_le hc
      · exact hy z h2

theorem sorted_sortDesc [LinearOrder β] (sc : α → β) :
    ∀ l : List α, (sortDesc sc l).Pairwise (fun a b => sc b ≤ sc a)
  | [] => by simp [sortDesc]
  | x :: xs => by
    have := sorted_sortDesc sc xs
    simpa [sortDesc] using sorted_insertDesc sc x _ (by simpa [sortDesc] using this)

theorem mem_sortDesc [LinearOrder β] (sc : α → β) (z : α) :
    ∀ l : List α, z ∈ sortDesc sc l → z ∈ l
  | [], h => by simp [sortDesc] at h
  | x :: xs, h => by
    rw [sortDesc, List.foldr_cons] at h
    rcases mem_insertDesc sc x z _ h with h2 | h2
    · simp [h2]
    · exact List.mem_cons_of_mem x (mem_sortDesc sc z xs h2)

/-- Every pair in a search_similar result carries the clamped
zip-truncated dot product of its stored vector with the query vector
and passed the min_score filter. -/
theorem search_similar_mem (q : List ℚ) (docs : List StudyDoc) (limit : Nat)
    (ms : ℚ) (p : StudyDoc × ℚ) (h : p ∈ search_similar q docs limit ms) :
    p.2 = clamp01 (dotZip p.1.vector q) ∧ ms ≤ p.2 := by
  unfold search_similar at h
  have h1 : p ∈ sortDesc (fun p : StudyDoc × ℚ => p.2)
      (((docs.map (fun d => (d, clamp01 (dotZip d.vector q)))).filter
        (fun p => decide (ms ≤ p.2)))) := List.take_subset _ _ h
  have h2 := mem_sortDesc _ p _ h1
  have h3 := List.mem_filter.mp h2
  obtain ⟨d, hd, hdp⟩ := List.mem_map.mp h3.1
  refine ⟨?_, of_decide_eq_true h3.2⟩
  rw [← hdp]

/-- C1: for every query embedding, limit and min_score, the list
returned by search_similar is sorted non-increasing by score, has
length at most limit, and every element's score is at least
min_score. -/
theorem search_similar_ranked_properties (q : List ℚ) (docs : List StudyDoc)
    (limit : Nat) (ms : ℚ) :
    (search_similar q docs limit ms).Pairwise (fun a b => b.2 ≤ a.2) ∧
    (search_similar q docs limit ms).length ≤ limit ∧
    ∀ p ∈ search_similar q docs limit ms, ms ≤ p.2 := by
  refine ⟨?_, ?_, ?_⟩
  · exact (sorted_sortDesc (fun p : StudyDoc × ℚ => p.2) _).sublist
      (List.take_sublist _ _)
  · exact List.length_take_le _ _
  · intro p hp
    exact (search_similar_mem q docs limit ms p hp).2

/-- Witness for C1 at a concrete query, document collection, limit and
min_score. -/
theorem search_similar_ranked_properties_witness :
    (0 : ℚ) ≤ (((⟨0, [1]⟩ : StudyDoc), (1 : ℚ))).2 :=
  (search_similar_ranked_properties [1] [⟨0, [1]⟩] 1 0).2.2
    (⟨0, [1]⟩, 1) (by norm_num [search_similar, sortDesc, insertDesc, dotZip, clamp01])

/-- C4: a document whose stored vector has a different dimensionality
than the query vector is NOT skipped by search_similar: the `$zip`
stage truncates to the shorter vector, so the document is scored over
the common prefix and returned.  Here a 2-dimensional stored vector is
ranked against a 3-dimensional query and comes back with score 1. -/
theorem search_similar_mismatched_vector_included :
    ((⟨0, [1, 0]⟩ : StudyDoc), (1 : ℚ)) ∈ search_similar [1, 0, 0] [⟨0, [1, 0]⟩] 5 0 ∧
    (⟨0, [1, 0]⟩ : StudyDoc).vector.length ≠ ([1, 0, 0] : List ℚ).length := by
  constructor
  · norm_num [search_similar, sortDesc, insertDesc, dotZip, clamp01]
  · norm_num

/-- C9: on embeddings of different lengths (where the numpy dot product
raises and the handler returns 0.0), calculate_similarity returns 0,
the same value it returns for a genuinely unrelated (orthogonal) pair
such as [1,0] and [0,1] — a dimension mismatch is indistinguishable
from unrelatedness at this interface. -/
theorem calculate_similarity_mismatch (a b : List ℚ) (h : a.length ≠ b.length) :
    calculate_similarity a b = 0 ∧
    calculate_similarity a b = calculate_similarity [1, 0] [0, 1] := by
  have h1 : calculate_similarity a b = 0 := by
    rw [calculate_similarity, if_neg h]
  have h2 : calculate_similarity [1, 0] [0, 1] = 0 := by
    have hd : dotZip [1, 0] [0, 1] = 0 := by norm_num [dotZip]
    rw [calculate_similarity]
    split
    · rw [cosineRaw, hd, Rat.cast_zero, zero_div,
        min_eq_right (by norm_num : (0 : ℝ) ≤ 1), max_self]
    · rfl
  exact ⟨h1, h1.trans h2.symm⟩

/-- Witness for C9 at a concrete mismatched pair. -/
theorem calculate_similarity_mismatch_witness :
    calculate_similarity [1] [1, 2] = 0 ∧
    calculate_similarity [1] [1, 2] = calculate_similarity [1, 0] [0, 1] :=
  calculate_similarity_mismatch [1] [1, 2] (by norm_num)

/-- Bounds of the pipeline clamp. -/
theorem clamp01_bounds (x : ℚ) : 0 ≤ clamp01 x ∧ clamp01 x ≤ 1 :=
  ⟨le_min (by norm_num) (le_max_left 0 x), min_le_left 1 _⟩

/-- C3: every similarity score the program computes for ranking is the
raw similarity clamped with `max(0, min(1, _))` and lies in [0,1]:
calculate_similarity returns exactly the clamped cosine whenever the
lengths agree and stays in [0,1] in every case, every score in a
base-service search result is exactly the clamped `$zip` dot product
and so lies in [0,1], and the database-level vector_similarity_search
returns no score list at all in either mode — its final `$project`
mixes an exclusion with a computed field, so the backend rejects the
pipeline and the call re-raises — hence no score outside [0,1] ever
reaches a caller. -/
theorem similarity_scores_clamped :
    (∀ a b : List ℚ,
      (a.length = b.length →
        calculate_similarity a b = max 0 (min 1 (cosineRaw a b))) ∧
      0 ≤ calculate_similarity a b ∧ calculate_similarity a b ≤ 1) ∧
    (∀ (q : List ℚ) (docs : List StudyDoc) (limit : Nat) (ms : ℚ),
      ∀ p ∈ search_similar q docs limit ms,
        p.2 = clamp01 (dotZip p.1.vector q) ∧ 0 ≤ p.2 ∧ p.2 ≤ 1) ∧
    (∀ (enabled : Bool) (knn : List ℚ → Nat → List (StudyDoc × ℝ)) (q : List ℚ)
        (docs : List StudyDoc) (limit : Nat) (filters : Option (StudyDoc → Bool)),
      vector_similarity_search enabled knn q docs limit filters =
        .error "Invalid $project :: caused by :: Cannot do exclusion on field vector in inclusion projection") := by
  refine ⟨?_, ?_, ?_⟩
  · intro a b
    refine ⟨?_, ?_⟩
    · intro h
      rw [calculate_similarity, if_pos h]
    · rw [calculate_similarity]
      split
      · exact ⟨le_max_left 0 _, max_le (by norm_num) (min_le_left 1 _)⟩
      · norm_num
  · intro q docs limit ms p hp
    have h := search_similar_mem q docs limit ms p hp
    refine ⟨h.1, ?_, ?_⟩
    · exact h.1 ▸ (clamp01_bounds _).1
    · exact h.1 ▸ (clamp01_bounds _).2
  · intro enabled knn q docs limit filters
    rw [vector_similarity_search, if_neg (by decide)]

/-- Witness for C3 at a concrete query and document. -/
theorem similarity_scores_clamped_witness :
    ((⟨0, [1]⟩ : StudyDoc), (1 : ℚ)).2 = clamp01 (dotZip (⟨0, [1]⟩ : StudyDoc).vector [1]) ∧
    (0 : ℚ) ≤ ((⟨0, [1]⟩ : StudyDoc), (1 : ℚ)).2 ∧ ((⟨0, [1]⟩ : StudyDoc), (1 : ℚ)).2 ≤ 1 :=
  similarity_scores_clamped.2.1 [1] [⟨0, [1]⟩] 1 0 (⟨0, [1]⟩, 1)
    (by norm_num [search_similar, sortDesc, insertDesc, dotZip, clamp01])

/-- The update `best = score if score > best else best` is a max. -/
theorem ite_lt_max (b s : ℚ) : (if b < s then s else b) = max b s := by
  rcases lt_or_le b s with h | h
  · rw [if_pos h, max_eq_right h.le]
  · rw [if_neg (not_lt.mpr h), max_eq_left h]

/-- Closed form of the verify_claim fold: the running best is a fold of
max, the notes are one line per candidate strictly above the threshold,
and the verified flag is a disjunction over candidates. -/
theorem verify_foldl (entail : String → String → ℚ) (mc : ℚ) (ct : String) :
    ∀ (studies : List Study) (b : ℚ) (ns : List String) (v : Bool),
      studies.foldl (verifyStep entail mc ct) (b, ns, v) =
        (studies.foldl (fun acc st => max acc (entail ct st.text)) b,
         ns ++ (studies.filter (fun st => decide (mc < entail ct st.text))).map
           (fun st => noteLine st.title (entail ct st.text)),
         v || studies.any (fun st => decide (mc < entail ct st.text)))
  | [], b, ns, v => by simp
  | st :: sts, b, ns, v => by
    have hstep : verifyStep entail mc ct (b, ns, v) st =
        (max b (entail ct st.text),
         ns ++ (if mc < entail ct st.text
                then [noteLine st.title (entail ct st.text)] else []),
         v || decide (mc < entail ct st.text)) := by
      rw [verifyStep]
      by_cases h : mc < entail ct st.text <;> simp [h, ite_lt_max]
    rw [List.foldl_cons, hstep, verify_foldl entail mc ct sts _ _ _]
    by_cases h : mc < entail ct st.text <;>
      simp [List.filter_cons, h, Bool.or_assoc, List.append_assoc]

/-- The fold of max never drops below its start. -/
theorem le_foldl_max (f : Study → ℚ) :
    ∀ (l : List Study) (b : ℚ), b ≤ l.foldl (fun acc st => max acc (f st)) b
  | [], b => le_refl b
  | st :: sts, b =>
    le_trans (le_max_left b (f st)) (le_foldl_max f sts (max b (f st)))

/-- The fold of max dominates every member score. -/
theorem mem_le_foldl_max (f : Study → ℚ) :
    ∀ (l : List Study) (b : ℚ) (st : Study), st ∈ l →
      f st ≤ l.foldl (fun acc s => max acc (f s)) b
  | [], _, st, h => absurd h (List.not_mem_nil st)
  | t :: ts, b, st, h => by
    rcases List.mem_cons.mp h with rfl | h
    · rw [List.foldl_cons]
      exact le_trans (le_max_right b (f st)) (le_foldl_max f ts _)
    · rw [List.foldl_cons]
      exact mem_le_foldl_max f ts _ st h

/-- The fold of max is its start or is attained at a member. -/
theorem foldl_max_attained (f : Study → ℚ) :
    ∀ (l : List Study) (b : ℚ),
      l.foldl (fun acc s => max acc (f s)) b = b ∨
      ∃ st ∈ l, l.foldl (fun acc s => max acc (f s)) b = f st
  | [], _ => Or.inl rfl
  | t :: ts, b => by
    rcases foldl_max_attained f ts (max b (f t)) with h | ⟨st, hst, h⟩
    · rw [List.foldl_cons, h]
      rcases max_choice b (f t) with h2 | h2
      · exact Or.inl h2
      · exact Or.inr ⟨t, List.mem_cons_self t ts, h2⟩
    · exact Or.inr ⟨st, List.mem_cons_of_mem t hst, by rw [List.foldl_cons]; exact h⟩

/-- C8: when retrieval returns no candidate studies, process_claim
returns the claim unverified with confidence 0 and a note that no
relevant studies were found (it is a total function of its inputs, so
no exception escapes on this path). -/
theorem process_claim_no_candidates (entail : String → String → ℚ) (mc : ℚ)
    (now : Nat) (retrieved : List Study) (c : Claim) (h : retrieved = []) :
    (process_claim entail mc now retrieved c).verified = false ∧
    (process_claim entail mc now retrieved c).confidence_score = some 0 ∧
    (process_claim entail mc now retrieved c).verification_notes =
      some "No relevant scientific studies found." := by
  subst h
  simp [process_claim]

/-- Witness for C8 at a concrete claim. -/
theorem process_claim_no_candidates_witness :
    (process_claim (fun _ _ => 0) (7/10) 0 [] ⟨"c", [], none, false, none, none⟩).verified
        = false ∧
    (process_claim (fun _ _ => 0) (7/10) 0 [] ⟨"c", [], none, false, none, none⟩).confidence_score
        = some 0 ∧
    (process_claim (fun _ _ => 0) (7/10) 0 [] ⟨"c", [], none, false, none, none⟩).verification_notes
        = some "No relevant scientific studies found." :=
  process_claim_no_candidates (fun _ _ => 0) (7/10) 0 [] ⟨"c", [], none, false, none, none⟩ rfl

/-- C10: on the empty-retrieval path process_claim writes only the
confidence, verified flag and notes; verified_at (and so an unset
verified_at stays unset), the related study ids and the claim text are
untouched, and those two fields are written exactly on the path where
candidates were scored. -/
theorem process_claim_frame (entail : String → String → ℚ) (mc : ℚ)
    (now : Nat) (retrieved : List Study) (c : Claim) :
    (retrieved = [] →
      (process_claim entail mc now retrieved c).verified_at = c.verified_at ∧
      (process_claim entail mc now retrieved c).related_scientific_study_ids =
        c.related_scientific_study_ids ∧
      (process_claim entail mc now retrieved c).text = c.text) ∧
    (retrieved ≠ [] →
      (process_claim entail mc now retrieved c).verified_at = some now ∧
      (process_claim entail mc now retrieved c).related_scientific_study_ids =
        retrieved.map (fun st => st.id)) := by
  constructor
  · intro h
    subst h
    simp [process_claim]
  · intro h
    simp [process_claim, h]

/-- Witness for C10 at a concrete claim with verified_at unset. -/
theorem process_claim_frame_witness :
    (process_claim (fun _ _ => 0) (7/10) 0 [] ⟨"c", [], none, false, none, some 5⟩).verified_at
      = (⟨"c", [], none, false, none, some 5⟩ : Claim).verified_at :=
  ((process_claim_frame (fun _ _ => 0) (7/10) 0 [] ⟨"c", [], none, false, none, some 5⟩).1 rfl).1

/-- C2 (amended): with a non-empty candidate set and entailment scores
that are probabilities (≥ 0), process_claim sets confidence_score to
the maximum entailment score over all candidates, sets verified exactly
when some candidate score STRICTLY exceeds the threshold (the source
compares with `>`, not `≥`), and stores one note line per candidate
whose score strictly exceeds the threshold; in particular when no
candidate strictly exceeds it, verified is false while
confidence_score still holds the best sub-threshold score. -/
theorem process_claim_scored (entail : String → String → ℚ) (mc : ℚ) (now : Nat)
    (studies : List Study) (c : Claim)
    (hne : studies ≠ [])
    (h0 : ∀ st ∈ studies, 0 ≤ entail c.text st.text) :
    (∃ st ∈ studies,
        (process_claim entail mc now studies c).confidence_score =
          some (entail c.text st.text) ∧
        ∀ t ∈ studies, entail c.text t.text ≤ entail c.text st.text) ∧
    ((process_claim entail mc now studies c).verified = true ↔
        ∃ st ∈ studies, mc < entail c.text st.text) ∧
    (process_claim entail mc now studies c).verification_notes =
      some (notesPerSupportingStudy entail mc c.text studies) ∧
    ((¬ ∃ st ∈ studies, mc < entail c.text st.text) →
        (process_claim entail mc now studies c).verified = false) := by
  have hv : verify_claim entail mc c studies =
      (studies.any (fun st => decide (mc < entail c.text st.text)),
       studies.foldl (fun acc st => max acc (entail c.text st.text)) 0,
       notesPerSupportingStudy entail mc c.text studies) := by
    rw [verify_claim, verify_foldl, notesPerSupportingStudy]
    simp
  have hp : process_claim entail mc now studies c =
      { c with
          verified := (verify_claim entail mc c studies).1,
          confidence_score := some (verify_claim entail mc c studies).2.1,
          verification_notes := some (verify_claim entail mc c studies).2.2,
          verified_at := some now,
          related_scientific_study_ids := studies.map (fun st => st.id) } := by
    rw [process_claim, if_neg hne]
  have hiff : (process_claim entail mc now studies c).verified = true ↔
      ∃ st ∈ studies, mc < entail c.text st.text := by
    rw [hp]
    simp only [hv]
    simp [List.any_eq_true]
  refine ⟨?_, hiff, ?_, ?_⟩
  · rcases foldl_max_attained (fun st => entail c.text st.text) studies 0 with h | h
    · rcases studies with _ | ⟨st, sts⟩
      · exact absurd rfl hne
      · refine ⟨st, List.mem_cons_self st sts, ?_, ?_⟩
        · rw [hp]
          simp only [hv]
          have h1 : entail c.text st.text ≤ 0 := by
            have := mem_le_foldl_max (fun st => entail c.text st.text)
              (st :: sts) 0 st (List.mem_cons_self st sts)
            rw [h] at this
            exact this
          have h2 := h0 st (List.mem_cons_self st sts)
          simp [h, le_antisymm h1 h2]
        · intro t ht
          have hb := mem_le_foldl_max (fun st => entail c.text st.text) (st :: sts) 0 t ht
          rw [h] at hb
          have h1 : entail c.text st.text ≤ 0 := by
            have := mem_le_foldl_max (fun st => entail c.text st.text)
              (st :: sts) 0 st (List.mem_cons_self st sts)
            rw [h] at this
            exact this
          have h2 := h0 st (List.mem_cons_self st sts)
          exact hb.trans (le_antisymm h1 h2).symm.le
    · obtain ⟨st, hst, h⟩ := h
      refine ⟨st, hst, ?_, ?_⟩
      · rw [hp]
        simp only [hv]
        simp [h]
      · intro t ht
        have hb := mem_le_foldl_max (fun st => entail c.text st.text) studies 0 t ht
        rw [h] at hb
        exact hb
  · rw [hp]
    simp only [hv]
  · intro hnone
    exact Bool.eq_false_iff.mpr (fun h => ((not_congr hiff).mpr hnone) h)

/-- Witness for C2 (amended) at a concrete sub-threshold candidate. -/
theorem process_claim_scored_witness :
    (process_claim (fun _ _ => 1/2) (7/10) 0 [⟨1, "S", "t"⟩]
        ⟨"c", [], none, false, none, none⟩).verification_notes =
      some (notesPerSupportingStudy (fun _ _ => 1/2) (7/10) "c" [⟨1, "S", "t"⟩]) :=
  (process_claim_scored (fun _ _ => 1/2) (7/10) 0 [⟨1, "S", "t"⟩]
      ⟨"c", [], none, false, none, none⟩ (by simp)
      (fun st _ => by norm_num)).2.2.1

/-- C2 (counterexample): when the single candidate scores exactly the
threshold (0.7, the configured MIN_CLAIM_CONFIDENCE default), the code
leaves the claim unverified even though best_score ≥ threshold holds,
refuting the claimed `verified = (best_score ≥ threshold)`. -/
theorem process_claim_boundary_not_verified :
    (process_claim (fun _ _ => 7/10) (7/10) 0 [⟨1, "S", "t"⟩]
        ⟨"c", [], none, false, none, none⟩).verified = false ∧
    (process_claim (fun _ _ => 7/10) (7/10) 0 [⟨1, "S", "t"⟩]
        ⟨"c", [], none, false, none, none⟩).confidence_score = some (7/10) ∧
    ((7 : ℚ)/10 ≥ 7/10) := by
  refine ⟨?_, ?_, le_refl _⟩ <;>
    norm_num [process_claim, verify_claim, verifyStep]

/-- C5: preprocessing is NOT idempotent.  The non-printable characters
are stripped only after whitespace has been collapsed, so a
non-printable, non-whitespace character standing as its own token
leaves a double space behind that only a second pass collapses. -/
theorem preprocess_text_not_idempotent :
    preprocess_text "a \x00 b".toList = "a  b".toList ∧
    preprocess_text (preprocess_text "a \x00 b".toList) = "a b".toList ∧
    preprocess_text (preprocess_text "a \x00 b".toList) ≠
      preprocess_text "a \x00 b".toList := by
  refine ⟨by decide, by decide, by decide⟩

/-! Facts about pySplit needed for the chunk-reconstruction property. -/

/-- Tokens produced by the splitter are non-empty and free of
whitespace, given the accumulator is. -/
theorem splitAux_tokens :
    ∀ (s : List Char) (acc : List Char), (∀ c ∈ acc, isPySpace c = false) →
      ∀ t ∈ splitAux s acc, t ≠ [] ∧ ∀ c ∈ t, isPySpace c = false
  | [], acc, hacc, t, ht => by
    rw [splitAux] at ht
    by_cases h : acc.isEmpty
    · rw [if_pos h] at ht
      exact absurd ht (List.not_mem_nil t)
    · rw [if_neg h] at ht
      rcases List.mem_cons.mp ht with rfl | ht
      · refine ⟨?_, ?_⟩
        · simp only [List.isEmpty_iff] at h
          simpa using h
        · intro c hc
          exact hacc c (List.mem_reverse.mp hc)
      · exact absurd ht (List.not_mem_nil t)
  | ch :: cs, acc, hacc, t, ht => by
    rw [splitAux] at ht
    by_cases hsp : isPySpace ch = true
    · rw [if_pos hsp] at ht
      by_cases h : acc.isEmpty
      · rw [if_pos h] at ht
        exact splitAux_tokens cs [] (by simp) t ht
      · rw [if_neg h] at ht
        rcases List.mem_cons.mp ht with rfl | ht
        · refine ⟨?_, ?_⟩
          · simp only [List.isEmpty_iff] at h
            simpa using h
          · intro c hc
            exact hacc c (List.mem_reverse.mp hc)
        · exact splitAux_tokens cs [] (by simp) t ht
    · rw [if_neg hsp] at ht
      refine splitAux_tokens cs (ch :: acc) ?_ t ht
      intro c hc
      rcases List.mem_cons.mp hc with rfl | hc
      · exact Bool.eq_false_iff.mpr hsp
      · exact hacc c hc

/-- Feeding a whitespace-free piece into the splitter just loads the
accumulator. -/
theorem splitAux_append :
    ∀ (t : List Char) (s : List Char) (acc : List Char),
      (∀ c ∈ t, isPySpace c = false) →
      splitAux (t ++ s) acc = splitAux s (t.reverse ++ acc)
  | [], s, acc, _ => by simp
  | ch :: cs, s, acc, h => by
    have hch : isPySpace ch = false := h ch (List.mem_cons_self ch cs)
    rw [List.cons_append, splitAux, if_neg (by simp [hch])]
    rw [splitAux_append cs s (ch :: acc) (fun c hc => h c (List.mem_cons_of_mem ch hc))]
    simp

/-- pySplit is a left inverse of joining non-empty whitespace-free
tokens with a single space. -/
theorem pySplit_pyJoin :
    ∀ (toks : List (List Char)),
      (∀ t ∈ toks, t ≠ [] ∧ ∀ c ∈ t, isPySpace c = false) →
      pySplit (pyJoin [' '] toks) = toks
  | [], _ => rfl
  | [t], h => by
    have ht := h t (List.mem_cons_self t [])
    rw [pyJoin, pySplit]
    have h2 : splitAux (t ++ []) [] = splitAux [] (t.reverse ++ []) :=
      splitAux_append t [] [] ht.2
    rw [List.append_nil] at h2
    rw [h2, List.append_nil, splitAux,
      if_neg (by simpa [List.isEmpty_iff] using ht.1), List.reverse_reverse]
  | t :: t2 :: rest, h => by
    have ht := h t (List.mem_cons_self t (t2 :: rest))
    have hrest : ∀ u ∈ t2 :: rest, u ≠ [] ∧ ∀ c ∈ u, isPySpace c = false :=
      fun u hu => h u (List.mem_cons_of_mem t hu)
    rw [show pyJoin [' '] (t :: t2 :: rest) =
        t ++ [' '] ++ pyJoin [' '] (t2 :: rest) from rfl, pySplit]
    have hshape : t ++ [' '] ++ pyJoin [' '] (t2 :: rest) =
        t ++ (' ' :: pyJoin [' '] (t2 :: rest)) := by simp
    rw [hshape, splitAux_append t _ [] ht.2, List.append_nil, splitAux,
      if_pos (by decide), if_neg (by simpa [List.isEmpty_iff] using ht.1),
      List.reverse_reverse]
    exact congrArg (t :: ·) (pySplit_pyJoin (t2 :: rest) hrest)

/-- Every element of every chunk comes from the input word list. -/
theorem mem_chunkLoop (size step : Nat) :
    ∀ (fuel : Nat) (ws : List α) (ch : List α),
      ch ∈ chunkLoop size step fuel ws → ∀ x ∈ ch, x ∈ ws
  | 0, _, ch, h => absurd h (List.not_mem_nil ch)
  | _ + 1, [], ch, h => absurd h (List.not_mem_nil ch)
  | fuel + 1, w :: ws, ch, h => by
    rw [chunkLoop] at h
    rcases List.mem_cons.mp h with rfl | h
    · exact fun x hx => List.take_subset size (w :: ws) hx
    · intro x hx
      exact List.drop_subset step (w :: ws) (mem_chunkLoop size step fuel _ ch h x hx)

/-- Dropping the overlap from every chunk and flattening yields the
input with the overlap dropped once at the front. -/
theorem chunkLoop_flatten_drop (size k : Nat) (hk : k < size) :
    ∀ (fuel : Nat) (ws : List α), ws.length ≤ fuel →
      ((chunkLoop size (size - k) fuel ws).map (List.drop k)).flatten = ws.drop k
  | 0, ws, h => by
    have hws : ws = [] := List.eq_nil_of_length_eq_zero (Nat.le_zero.mp h)
    subst hws
    simp [chunkLoop]
  | fuel + 1, [], _ => by simp [chunkLoop]
  | fuel + 1, w :: ws, h => by
    have hstep : 1 ≤ size - k := Nat.le_sub_of_add_le (by omega)
    have hlen : ((w :: ws).drop (size - k)).length ≤ fuel := by
      rw [List.length_drop]
      simp only [List.length_cons] at h ⊢
      omega
    rw [chunkLoop, List.map_cons, List.flatten_cons,
      chunkLoop_flatten_drop size k hk fuel _ hlen,
      List.drop_drop, Nat.sub_add_cancel hk.le, List.drop_take]
    have : size - k + k = size := Nat.sub_add_cancel hk.le
    calc ((w :: ws).drop k).take (size - k) ++ (w :: ws).drop size
        = ((w :: ws).drop k).take (size - k) ++ (w :: ws).drop (k + (size - k)) := by
          rw [Nat.add_sub_cancel' hk.le]
      _ = (w :: ws).drop k := List.drop_take_append_drop (w :: ws) k (size - k)

/-- Reconstruction at the word-list level: concatenating the chunks
with the overlap removed from every chunk after the first rebuilds the
word list. -/
theorem chunkWords_reconstruct (ws : List α) (size : Nat) (hsize : 1 ≤ size) :
    reconstructTokens (min 50 (size / 10)) (chunkWords ws size) = ws := by
  have hk : min 50 (size / 10) < size :=
    lt_of_le_of_lt (min_le_right _ _) (Nat.div_lt_self (by omega) (by norm_num))
  cases ws with
  | nil => rfl
  | cons w wsr =>
    rw [chunkWords]
    simp only [List.length_cons]
    rw [chunkLoop, reconstructTokens]
    have hlen : ((w :: wsr).drop (size - min 50 (size / 10))).length ≤ wsr.length := by
      rw [List.length_drop]
      simp only [List.length_cons]
      omega
    rw [chunkLoop_flatten_drop size (min 50 (size / 10)) hk wsr.length _ hlen,
      List.drop_drop, Nat.sub_add_cancel hk.le, List.take_append_drop]

/-- C6: for a text with at least one token, the chunks of _chunk_text,
re-split into tokens and concatenated with the k-token overlap removed
(k the overlap the source computes from the chunk size), reconstruct
the whitespace-delimited token sequence of the text exactly. -/
theorem chunk_text_reconstructs (s : List Char) (size : Nat)
    (hsize : 1 ≤ size) (_hne : pySplit s ≠ []) :
    reconstructTokens (min 50 (size / 10)) ((chunk_text s size).map pySplit) =
      pySplit s := by
  rw [chunk_text, List.map_map]
  have hmap : (chunkWords (pySplit s) size).map (pySplit ∘ pyJoin [' '])
      = (chunkWords (pySplit s) size).map id := by
    refine List.map_congr_left ?_
    intro ch hch
    refine pySplit_pyJoin ch ?_
    intro t ht
    refine splitAux_tokens s [] (by simp) t ?_
    rw [chunkWords] at hch
    exact mem_chunkLoop size _ _ (pySplit s) ch hch t ht
  rw [hmap, List.map_id]
  exact chunkWords_reconstruct (pySplit s) size hsize

/-- Witness for C6 at the default chunk size on a concrete text. -/
theorem chunk_text_reconstructs_witness :
    reconstructTokens (min 50 (512 / 10))
        ((chunk_text "hello brave world".toList 512).map pySplit) =
      pySplit "hello brave world".toList :=
  chunk_text_reconstructs "hello brave world".toList 512 (by norm_num) (by decide)

/-- A failure of the chunk loop is a failure of some encoder call. -/
theorem mapExcept_error (f : α → Except String β) :
    ∀ (l : List α) (e : String), mapExcept f l = .error e → ∃ a ∈ l, f a = .error e
  | [], e, h => by simp [mapExcept] at h
  | a :: as, e, h => by
    rw [mapExcept] at h
    cases hfa : f a with
    | error e2 =>
      rw [hfa] at h
      injection h with h2
      exact ⟨a, List.mem_cons_self a as, by rw [hfa, h2]⟩
    | ok b =>
      rw [hfa] at h
      cases hrec : mapExcept f as with
      | error e2 =>
        rw [hrec] at h
        injection h with h2
        obtain ⟨x, hx, hfx⟩ := mapExcept_error f as e2 hrec
        exact ⟨x, List.mem_cons_of_mem a hx, by rw [hfx, h2]⟩
      | ok bs =>
        rw [hrec] at h
        exact absurd h (by simp)

/-- Every error escaping the embedding run is an encoder error or one
of the two concrete stack errors. -/
theorem generate_embedding_run_error (embed : String → Except String (List ℚ))
    (text : String) (e : String)
    (h : generate_embedding_run embed text = .error e) :
    (∃ c, embed c = .error e) ∨
    e = "stack expects a non-empty TensorList" ∨
    e = "stack expects each tensor to be equal size" := by
  rw [generate_embedding_run] at h
  cases hm : mapExcept (fun ch => embed (String.mk ch))
      (chunk_text (preprocess_text text.toList) 512) with
  | error e2 =>
    rw [hm] at h
    injection h with h2
    obtain ⟨a, _, hfa⟩ := mapExcept_error _ _ e2 hm
    exact Or.inl ⟨String.mk a, by rw [hfa, h2]⟩
  | ok embs =>
    rw [hm] at h
    cases embs with
    | nil =>
      have h3 : combine_embeddings ([] : List (List ℚ)) = Except.error e := h
      injection h3 with h2
      exact Or.inr (Or.inl h2.symm)
    | cons v rest =>
      have h3 : (if rest.all (fun w => w.length == v.length) = true
          then Except.ok (meanVec (v :: rest))
          else (Except.error "stack expects each tensor to be equal size" :
            Except String (List ℚ))) = Except.error e := h
      by_cases hall : rest.all (fun w => w.length == v.length) = true
      · rw [if_pos hall] at h3
        exact absurd h3 (by simp)
      · rw [if_neg hall] at h3
        injection h3 with h2
        exact Or.inr (Or.inr h2.symm)

/-- An all-whitespace input yields no tokens. -/
theorem splitAux_all_space :
    ∀ s : List Char, (∀ c ∈ s, isPySpace c = true) → splitAux s [] = []
  | [], _ => rfl
  | c :: cs, h => by
    have hc := h c (List.mem_cons_self c cs)
    rw [splitAux]
    simp only [hc, List.isEmpty_nil, if_true]
    exact splitAux_all_space cs (fun c2 hc2 => h c2 (List.mem_cons_of_mem c hc2))

/-- Preprocessing a text without tokens yields the empty text. -/
theorem preprocess_no_tokens (s : List Char) (h : pySplit s = []) :
    preprocess_text s = [] := by
  rw [preprocess_text, h]
  rfl

/-- C7: for an empty or whitespace-only input the embedding attempt
fails (no vector is produced: the chunk list is empty and the stack
step rejects it); and every failing attempt hands the caller none
together with a metrics entry recording success = false and a
non-empty error message, provided encoder errors carry non-empty
messages. -/
theorem generate_embedding_failure_metrics (embed : String → Except String (List ℚ))
    (text : String)
    (hmsg : ∀ c e2, embed c = .error e2 → e2 ≠ "") :
    ((∀ c ∈ text.toList, isPySpace c = true) →
      (generate_embedding embed text).1 = none) ∧
    ((generate_embedding embed text).1 = none →
      (generate_embedding embed text).2.success = false ∧
      (generate_embedding embed text).2.error_message ≠ "") := by
  constructor
  · intro hsp
    have h1 : preprocess_text text.toList = [] :=
      preprocess_no_tokens _ (splitAux_all_space _ hsp)
    have h2 : chunk_text (preprocess_text text.toList) 512 = [] := by
      rw [h1]
      rfl
    have hrun : generate_embedding_run embed text =
        .error "stack expects a non-empty TensorList" := by
      rw [generate_embedding_run, h2]
      rfl
    have h3 : generate_embedding embed text =
        (none, ⟨0, 0, (preprocess_text text.toList).length, false,
          "stack expects a non-empty TensorList"⟩) := by
      rw [generate_embedding, hrun]
    rw [h3]
  · intro hnone
    cases hrun : generate_embedding_run embed text with
    | ok v =>
      have h3 : generate_embedding embed text =
          (some v, ⟨(chunk_text (preprocess_text text.toList) 512).length, 0,
            (preprocess_text text.toList).length, true, ""⟩) := by
        rw [generate_embedding, hrun]
      rw [h3] at hnone
      exact absurd hnone (by simp)
    | error e2 =>
      have h3 : generate_embedding embed text =
          (none, ⟨0, 0, (preprocess_text text.toList).length, false, e2⟩) := by
        rw [generate_embedding, hrun]
      rw [h3]
      refine ⟨rfl, ?_⟩
      rcases generate_embedding_run_error embed text e2 hrun with ⟨c, hc⟩ | h | h
      · exact hmsg c e2 hc
      · rw [h]
        exact (by decide : ("stack expects a non-empty TensorList" : String) ≠ "")
      · rw [h]
        exact (by decide : ("stack expects each tensor to be equal size" : String) ≠ "")

/-- Witness for C7: a whitespace-only input under an encoder oracle
whose errors carry a message. -/
theorem generate_embedding_failure_metrics_witness :
    (generate_embedding (fun _ => .error "boom") "  ").1 = none :=
  (generate_embedding_failure_metrics (fun _ => .error "boom") "  "
    (fun c e2 h => by
      injection h with h2
      rw [← h2]
      decide)).1 (by decide)
